import Mathlib

set_option maxHeartbeats 1600000
set_option maxRecDepth 400000

/-!
Shallow embedding of the analytics core of the Irys Daydream Analytics System
(pattern recognition, predictive engine, streaming window buffer, memory
tiering manager), together with theorems settling the specification claims.

Modelling conventions:
* JavaScript numbers are modelled as exact rationals.  Where the code can
  produce Infinity or NaN (division by zero in the robust anomaly scorer),
  the result type JSVal records those values explicitly with the semantics
  of IEEE division and comparison (NaN compares false).
* Array.prototype.sort with a numeric comparator is modelled by a stable
  insertion sort jsSortBy; an element is placed before another exactly when
  the comparator strictly orders it earlier, matching the ECMAScript
  requirement that sorts be stable and that a NaN comparator result is
  treated as zero.
* Maps are modelled as association lists in insertion order.
-/

/-- Stable insertion of one element: place a before the first element b such
that the comparator strictly orders a before b (sb a b = true); otherwise keep
scanning, so that elements comparing equal keep their original order. -/
def jsInsert (sb : α → α → Bool) (a : α) : List α → List α
  | [] => [a]
  | b :: l => if sb a b then a :: b :: l else b :: jsInsert sb a l

/-- Model of Array.prototype.sort with comparator cmp, where
sb x y decides cmp x y < 0 (x strictly precedes y): a stable sort. -/
def jsSortBy (sb : α → α → Bool) (l : List α) : List α :=
  l.foldl (fun acc x => jsInsert sb x acc) []

/-- Model of the numeric ascending sort .sort((a, b) => a - b). -/
def jsSortNum (l : List ℚ) : List ℚ :=
  jsSortBy (fun a b => decide (a < b)) l

theorem jsInsert_map (f : α → β) (sb1 : α → α → Bool) (sb2 : β → β → Bool)
    (h : ∀ x y, sb2 (f x) (f y) = sb1 x y) (a : α) (l : List α) :
    jsInsert sb2 (f a) (l.map f) = (jsInsert sb1 a l).map f := by
  induction l with
  | nil => rfl
  | cons b t ih =>
      simp only [List.map_cons, jsInsert, h]
      by_cases hb : sb1 a b
      · simp [hb]
      · simp [hb, ih]

theorem jsSortBy_map (f : α → β) (sb1 : α → α → Bool) (sb2 : β → β → Bool)
    (h : ∀ x y, sb2 (f x) (f y) = sb1 x y) (l : List α) :
    jsSortBy sb2 (l.map f) = (jsSortBy sb1 l).map f := by
  unfold jsSortBy
  suffices H : ∀ (l acc : List α),
      (l.map f).foldl (fun acc x => jsInsert sb2 x acc) (acc.map f) =
        (l.foldl (fun acc x => jsInsert sb1 x acc) acc).map f by
    simpa using H l []
  intro l
  induction l with
  | nil => intro acc; rfl
  | cons a t ih =>
      intro acc
      simp only [List.map_cons, List.foldl_cons]
      rw [jsInsert_map f sb1 sb2 h a acc]
      exact ih _

theorem jsSortBy_cons_head (sb : α → α → Bool) (a : α) (l : List α)
    (h : ∀ x ∈ l, sb x a = false) :
    ∃ t, jsSortBy sb (a :: l) = a :: t := by
  unfold jsSortBy
  simp only [List.foldl_cons]
  suffices H : ∀ (l : List α) (acc : List α), (∀ x ∈ l, sb x a = false) →
      ∃ t, l.foldl (fun acc x => jsInsert sb x acc) (a :: acc) = a :: t by
    exact H l [] h
  intro l
  induction l with
  | nil => exact fun acc _ => ⟨acc, rfl⟩
  | cons x t ih =>
      intro acc hx
      simp only [List.foldl_cons]
      have hxa : sb x a = false := hx x (List.mem_cons_self x t)
      have : jsInsert sb x (a :: acc) = a :: jsInsert sb x acc := by
        simp [jsInsert, hxa]
      rw [this]
      exact ih _ fun y hy => hx y (List.mem_cons_of_mem x hy)

/-- Model of Math.abs on finite values. -/
def jsAbs (q : ℚ) : ℚ := if q < 0 then -q else q

theorem jsAbs_eq_abs (q : ℚ) : jsAbs q = |q| := by
  unfold jsAbs
  by_cases h : q < 0
  · simp [h, abs_of_neg h]
  · simp [h, abs_of_nonneg (not_lt.mp h)]

theorem jsAbs_mul_left (c : ℚ) (hc : 0 < c) (q : ℚ) :
    jsAbs (c * q) = c * jsAbs q := by
  rw [jsAbs_eq_abs, jsAbs_eq_abs, abs_mul, abs_of_pos hc]

/-- Exact model of a JavaScript number as produced by the anomaly scorer:
either a finite rational, an infinity, or NaN. -/
inductive JSVal where
  | num (q : ℚ)
  | posInf
  | negInf
  | nan
deriving DecidableEq, Repr

/-- IEEE division a / b of finite values, as JavaScript evaluates it. -/
def jsDiv (a b : ℚ) : JSVal :=
  if b = 0 then
    if a = 0 then .nan else if 0 < a then .posInf else .negInf
  else .num (a / b)

/-- The JavaScript comparison v > t for a finite threshold t: NaN compares
false, +Infinity compares true. -/
def JSVal.gtq : JSVal → ℚ → Bool
  | .num q, t => decide (t < q)
  | .posInf, _ => true
  | .negInf, _ => false
  | .nan, _ => false

theorem jsDiv_mul_left (c : ℚ) (hc : 0 < c) (a b : ℚ) :
    jsDiv (c * a) (c * b) = jsDiv a b := by
  have hc0 : c ≠ 0 := ne_of_gt hc
  unfold jsDiv
  by_cases hb : b = 0
  · subst hb
    rw [mul_zero]
    rcases lt_trichotomy a 0 with h | h | h
    · have hca : c * a < 0 := mul_neg_of_pos_of_neg hc h
      simp [ne_of_lt h, ne_of_lt hca, not_lt.mpr (le_of_lt h),
        not_lt.mpr (le_of_lt hca)]
    · subst h; simp
    · have hca : 0 < c * a := mul_pos hc h
      simp [ne_of_gt h, ne_of_gt hca, h, hca]
  · have hb' : c * b ≠ 0 := mul_ne_zero hc0 hb
    simp only [hb, hb', if_false]
    rw [mul_div_mul_left a b hc0]

/-- Severity tier of a flagged anomaly. -/
inductive Severity where
  | low
  | medium
  | high
deriving DecidableEq, Repr

/-- One flagged anomalous point (index into the batch, robust z-score,
severity tier); mirrors the AnomalyResult interface. -/
structure AnomalyResult where
  index : Nat
  score : JSVal
  severity : Severity
deriving DecidableEq, Repr

namespace RobustAnomalyDetector

/-- Median of a list by the middle-index formula of the source.  The source
always passes the parameter positionally; note that on the empty list the
JavaScript expression indexes out of bounds and yields NaN, while this model
yields 0 — the value is never observed because detect's loop is then empty. -/
def calculateMedian (sorted : List ℚ) : ℚ :=
  let middle := sorted.length / 2
  if sorted.length % 2 = 0 then
    (sorted.getD (middle - 1) 0 + sorted.getD middle 0) / 2
  else sorted.getD middle 0

/-- Median and scaled MAD of a batch.  Faithful to the source, which passes
the UNSORTED deviations array to calculateMedian (the parameter is merely
named sorted there; no sort happens on it). -/
def calculateMAD (sensitivityFactor : ℚ) (data : List ℚ) : ℚ × ℚ :=
  let sorted := jsSortNum data
  let median := calculateMedian sorted
  let deviations := data.map (fun value => jsAbs (value - median))
  let mad := calculateMedian deviations * sensitivityFactor
  (median, mad)

/-- Severity tiering by score against multiples of the threshold. -/
def calculateSeverity (threshold : ℚ) (score : JSVal) : Severity :=
  if score.gtq (threshold * 2) then .high
  else if score.gtq (threshold * (3 / 2)) then .medium
  else .low

/-- Robust anomaly detection: score every point by distance to the median
over the scaled MAD and keep those whose score exceeds the threshold. -/
def detect (threshold sensitivityFactor : ℚ) (data : List ℚ) :
    List AnomalyResult :=
  let m := calculateMAD sensitivityFactor data
  data.enum.filterMap (fun p =>
    let score := jsDiv (jsAbs (p.2 - m.1)) m.2
    if score.gtq threshold then
      some ⟨p.1, score, calculateSeverity threshold score⟩
    else none)

end RobustAnomalyDetector

/-- C2: on values [10,10,10,10,100] with threshold 2.5 and sensitivity
factor 1.5, detection flags exactly the point with value 100 (index 4): its
MAD is 0, so its score is +Infinity, which exceeds 2x the threshold and is
tiered high; the four points with value 10 score NaN and are not flagged. -/
theorem detect_scenario_c2 :
    RobustAnomalyDetector.detect (5 / 2) (3 / 2) [10, 10, 10, 10, 100] =
      [⟨4, JSVal.posInf, Severity.high⟩] := by
  with_unfolding_all rfl

theorem getD_map_mul (c : ℚ) (l : List ℚ) (n : Nat) :
    (l.map (fun v => c * v)).getD n 0 = c * l.getD n 0 := by
  simp only [List.getD_eq_getElem?_getD, List.getElem?_map]
  cases h : l[n]? <;> simp [h]

namespace RobustAnomalyDetector

theorem calculateMedian_map_mul (c : ℚ) (l : List ℚ) :
    calculateMedian (l.map (fun v => c * v)) = c * calculateMedian l := by
  unfold calculateMedian
  simp only [List.length_map]
  by_cases h : l.length % 2 = 0
  · simp only [h, if_true]
    rw [getD_map_mul, getD_map_mul]
    ring
  · simp only [h, if_false]
    rw [getD_map_mul]

theorem jsSortNum_map_mul (c : ℚ) (hc : 0 < c) (l : List ℚ) :
    jsSortNum (l.map (fun v => c * v)) = (jsSortNum l).map (fun v => c * v) := by
  unfold jsSortNum
  exact jsSortBy_map (fun v => c * v) _ _
    (fun x y => by simp [mul_lt_mul_left hc]) l

theorem calculateMAD_map_mul (s c : ℚ) (hc : 0 < c) (data : List ℚ) :
    calculateMAD s (data.map (fun v => c * v)) =
      (c * (calculateMAD s data).1, c * (calculateMAD s data).2) := by
  unfold calculateMAD
  simp only
  rw [jsSortNum_map_mul c hc, calculateMedian_map_mul]
  have hdev : (data.map (fun v => c * v)).map
        (fun value => jsAbs (value - c * calculateMedian (jsSortNum data))) =
      (data.map (fun value =>
        jsAbs (value - calculateMedian (jsSortNum data)))).map (fun v => c * v) := by
    rw [List.map_map, List.map_map]
    apply List.map_congr_left
    intro a _
    simp only [Function.comp]
    rw [← mul_sub, jsAbs_mul_left c hc]
  rw [hdev, calculateMedian_map_mul]
  simp only [Prod.mk.injEq, true_and]
  ring

end RobustAnomalyDetector

/-- C5: MAD-based anomaly detection is invariant under scaling all values by
a positive constant: the detector returns identical results (same flagged
indices, scores and severities) on the scaled and the original series.  This
holds also when the scaled MAD is zero, because the IEEE quotients agree
(NaN with NaN, +Infinity with +Infinity). -/
theorem detect_scale_invariant (threshold s : ℚ) (data : List ℚ) (c : ℚ)
    (hc : 0 < c) :
    RobustAnomalyDetector.detect threshold s (data.map (fun v => c * v)) =
      RobustAnomalyDetector.detect threshold s data := by
  unfold RobustAnomalyDetector.detect
  simp only
  rw [RobustAnomalyDetector.calculateMAD_map_mul s c hc data]
  rw [List.enum_map, List.filterMap_map]
  apply congrArg (fun f => List.filterMap f _)
  funext p
  rcases p with ⟨i, v⟩
  simp only [Prod.map, Function.comp, id]
  rw [← mul_sub, jsAbs_mul_left c hc, jsDiv_mul_left c hc]

/-- Witness instantiating C5 at the concrete series [1, 1, 5] and scale 2. -/
theorem detect_scale_invariant_witness :
    (0 : ℚ) < 2 ∧
      RobustAnomalyDetector.detect (5 / 2) (3 / 2)
          (([1, 1, 5] : List ℚ).map (fun v => 2 * v)) =
        RobustAnomalyDetector.detect (5 / 2) (3 / 2) [1, 1, 5] :=
  ⟨by decide, detect_scale_invariant (5 / 2) (3 / 2) [1, 1, 5] 2 (by decide)⟩

/-- One timestamped observation. -/
structure DataPoint where
  timestamp : ℤ
  value : ℚ
deriving DecidableEq, Repr

/-- Direction tag for trend segmentation (the metadata.direction field of a
trend pattern). -/
inductive Dir where
  | up
  | down
deriving DecidableEq, Repr

/-- Pattern kinds of the recognition engine. -/
inductive PatternType where
  | trend
  | cycle
  | seasonality
  | anomaly
  | correlation
deriving DecidableEq, Repr

/-- One recognized pattern; the direction field models the
metadata.direction entry the source attaches to trend patterns. -/
structure Pattern where
  ptype : PatternType
  confidence : ℚ
  startIndex : Nat
  endIndex : Nat
  direction : Dir
deriving DecidableEq, Repr

/-- Trend, seasonal and residual components of a decomposition. -/
structure TimeSeriesComponents where
  trend : List ℚ
  seasonal : List ℚ
  residual : List ℚ
deriving DecidableEq, Repr

namespace AdvancedTimeSeriesModel

/-- Mean of a smoothing window (the local regression placeholder of the
source).  The window is nonempty whenever the data is, so the 0 that this
model yields on an empty window (where JavaScript would produce NaN) is
never observed. -/
def calculateLocalRegression (window : List ℚ) : ℚ :=
  window.sum / window.length

/-- Moving-average smoothing: slice a neighborhood around each index,
clamped to the array bounds, and take its mean.  slice(a, b) is modelled by
drop a then take (b - a); Math.max(0, i - windowSize) is the truncated
natural subtraction. -/
def calculateTrend (windowSize : Nat) (data : List ℚ) : List ℚ :=
  (List.range data.length).map (fun i =>
    let windowStart := i - windowSize
    let windowEnd := min data.length (i + windowSize + 1)
    calculateLocalRegression
      ((data.drop windowStart).take (windowEnd - windowStart)))

/-- The seasonal estimator of the source: an all-zeros series of the same
length. -/
def calculateSeasonality (data : List ℚ) : List ℚ :=
  List.replicate data.length 0

/-- Decomposition with the source's placeholder seasonal part.  The
elementwise subtractions over equal-length arrays are zipWith. -/
def decompose (windowSize : Nat) (data : List ℚ) : TimeSeriesComponents :=
  let trend := calculateTrend windowSize data
  let detrended := List.zipWith (fun value t => value - t) data trend
  let seasonal := calculateSeasonality detrended
  let residual := List.zipWith (fun value s => value - s) detrended seasonal
  ⟨trend, seasonal, residual⟩

/-- Constant confidence placeholder of the source. -/
def calculateConfidence (data : List ℚ) : ℚ := 9 / 10

/-- Trend segmentation loop: tag each position up or down relative to its
predecessor and emit one trend Pattern each time the direction changes,
closing the previous run with endIndex i - 1.  State: prev is the previous
series value, cur the current run's direction (none before the first tag),
start the run's start index, i the loop counter; trendAll is the whole
series, kept to slice the run for the confidence call as the source does. -/
def analyzeTrendGo (trendAll : List ℚ) (prev : ℚ) (cur : Option Dir)
    (start i : Nat) : List ℚ → List Pattern
  | [] => []
  | t :: ts =>
    let d : Dir := if prev < t then .up else .down
    if cur = some d then analyzeTrendGo trendAll t cur start (i + 1) ts
    else
      match cur with
      | none => analyzeTrendGo trendAll t (some d) i (i + 1) ts
      | some c =>
          ⟨.trend, calculateConfidence ((trendAll.drop start).take (i - start)),
            start, i - 1, c⟩ ::
            analyzeTrendGo trendAll t (some d) i (i + 1) ts

/-- Trend segmentation over a trend series: the source's loop from index 1
with null current direction and startIndex 0. -/
def analyzeTrend (trend : List ℚ) : List Pattern :=
  match trend with
  | [] => []
  | t0 :: rest => analyzeTrendGo trend t0 none 0 1 rest

/-- Seasonality pattern detection placeholder of the source: no patterns. -/
def analyzeSeasonality (seasonal : List ℚ) : List Pattern := []

/-- Full analysis: guard on the minimum number of points (throwing the
Insufficient-data error), then trend patterns followed by seasonal ones. -/
def analyze (windowSize minPoints : Nat) (data : List ℚ) :
    Except String (List Pattern) :=
  if data.length < minPoints then
    .error "Insufficient data points for analysis"
  else
    let c := decompose windowSize data
    .ok (analyzeTrend c.trend ++ analyzeSeasonality c.seasonal)

end AdvancedTimeSeriesModel

/-- Combined output of analyzeTimeSeries. -/
structure AnalysisOutput where
  patterns : List Pattern
  anomalies : List AnomalyResult
  components : TimeSeriesComponents
deriving DecidableEq, Repr

namespace PatternRecognitionEngine

/-- Engine entry point with the constructor defaults (windowSize 10,
minPoints 30, threshold 2.5, sensitivity factor 1.5).  A thrown
Insufficient-data error from analyze rejects the whole call before the
anomaly detector and the decomposition run, which the Except bind models. -/
def analyzeTimeSeries (data : List DataPoint) : Except String AnalysisOutput :=
  let values := data.map (fun p => p.value)
  match AdvancedTimeSeriesModel.analyze 10 30 values with
  | .error e => .error e
  | .ok patterns =>
      .ok ⟨patterns, RobustAnomalyDetector.detect (5 / 2) (3 / 2) values,
        AdvancedTimeSeriesModel.decompose 10 values⟩

end PatternRecognitionEngine

/-- C4: a window smaller than the default minPoints of 30 makes
analyzeTimeSeries fail with the Insufficient-data error, and the error
result carries no patterns, anomalies or components. -/
theorem analyzeTimeSeries_insufficient (data : List DataPoint)
    (h : data.length < 30) :
    PatternRecognitionEngine.analyzeTimeSeries data =
      .error "Insufficient data points for analysis" := by
  have hlen : (data.map (fun p => p.value)).length < 30 := by simpa using h
  simp [PatternRecognitionEngine.analyzeTimeSeries,
    AdvancedTimeSeriesModel.analyze, hlen, h]

/-- Witness instantiating C4 on the empty window. -/
theorem analyzeTimeSeries_insufficient_witness :
    ([] : List DataPoint).length < 30 ∧
      PatternRecognitionEngine.analyzeTimeSeries [] =
        .error "Insufficient data points for analysis" :=
  ⟨by decide, analyzeTimeSeries_insufficient [] (by decide)⟩

/-- Direction tags of a trend series as the specification describes them:
index i of the series (for i from 1) is tagged up when its value exceeds its
predecessor's, down otherwise. -/
def dirTags (trend : List ℚ) : List Dir :=
  List.zipWith (fun a b => if a < b then Dir.up else Dir.down) trend trend.tail

/-- Maximal contiguous runs of equal tags, accumulated as
(startIndex, endIndex, direction) in trend-series indices: c is the current
run's direction, start its first tagged index and i the last tagged index
consumed so far.  The final run is closed by the end of the tag list. -/
def specRunsAux (c : Dir) (start i : Nat) : List Dir → List (Nat × Nat × Dir)
  | [] => [(start, i, c)]
  | e :: es =>
      if e = c then specRunsAux c start (i + 1) es
      else (start, i, c) :: specRunsAux e (i + 1) (i + 1) es

/-- Specification-side view of trend segmentation: the maximal contiguous
runs of equally tagged indices of a trend series (the first tagged index is
1, the final run ends at the last index). -/
def specTrendRuns (trend : List ℚ) : List (Nat × Nat × Dir) :=
  match dirTags trend with
  | [] => []
  | d :: ds => specRunsAux d 1 1 ds

theorem specRunsAux_ne_nil (c : Dir) (start i : Nat) (ds : List Dir) :
    specRunsAux c start i ds ≠ [] := by
  induction ds generalizing c start i with
  | nil => simp [specRunsAux]
  | cons e es ih =>
      unfold specRunsAux
      by_cases h : e = c
      · simpa [h] using ih c start (i + 1)
      · simp [h]

/-- A run triple rendered as the trend Pattern the loop would emit for it. -/
def runPattern (r : Nat × Nat × Dir) : Pattern :=
  ⟨.trend, 9 / 10, r.1, r.2.1, r.2.2⟩

theorem analyzeTrendGo_cons (ta : List ℚ) (prev t : ℚ) (ts : List ℚ) (c : Dir)
    (start i : Nat) :
    AdvancedTimeSeriesModel.analyzeTrendGo ta prev (some c) start i (t :: ts) =
      if c = (if prev < t then Dir.up else Dir.down) then
        AdvancedTimeSeriesModel.analyzeTrendGo ta t (some c) start (i + 1) ts
      else
        ⟨.trend,
          AdvancedTimeSeriesModel.calculateConfidence
            ((ta.drop start).take (i - start)), start, i - 1, c⟩ ::
          AdvancedTimeSeriesModel.analyzeTrendGo ta t
            (some (if prev < t then Dir.up else Dir.down)) i (i + 1) ts := by
  conv_lhs => rw [AdvancedTimeSeriesModel.analyzeTrendGo]
  by_cases h : c = (if prev < t then Dir.up else Dir.down)
  · simp [h]
  · simp [h]

theorem analyzeTrendGo_cons_none (ta : List ℚ) (prev t : ℚ) (ts : List ℚ)
    (start i : Nat) :
    AdvancedTimeSeriesModel.analyzeTrendGo ta prev none start i (t :: ts) =
      AdvancedTimeSeriesModel.analyzeTrendGo ta t
        (some (if prev < t then Dir.up else Dir.down)) i (i + 1) ts := by
  conv_lhs => rw [AdvancedTimeSeriesModel.analyzeTrendGo]
  simp

theorem dirTags_cons_cons (prev t : ℚ) (ts : List ℚ) :
    dirTags (prev :: t :: ts) =
      (if prev < t then Dir.up else Dir.down) :: dirTags (t :: ts) := by
  simp [dirTags]

theorem analyzeTrendGo_eq_runs (trendAll : List ℚ) (ts : List ℚ) :
    ∀ (prev : ℚ) (c : Dir) (start j : Nat),
    AdvancedTimeSeriesModel.analyzeTrendGo trendAll prev (some c) start (j + 1)
        ts =
      (specRunsAux c start j (dirTags (prev :: ts))).dropLast.map runPattern := by
  induction ts with
  | nil =>
      intro prev c start j
      simp [AdvancedTimeSeriesModel.analyzeTrendGo, dirTags, specRunsAux]
  | cons t ts' ih =>
      intro prev c start j
      rw [analyzeTrendGo_cons, dirTags_cons_cons]
      generalize (if prev < t then Dir.up else Dir.down) = D
      by_cases hcd : c = D
      · subst hcd
        rw [if_pos rfl]
        rw [show specRunsAux c start j (c :: dirTags (t :: ts')) =
            specRunsAux c start (j + 1) (dirTags (t :: ts')) by
          rw [specRunsAux, if_pos rfl]]
        exact ih t c start (j + 1)
      · rw [if_neg hcd]
        rw [show specRunsAux c start j (D :: dirTags (t :: ts')) =
            (start, j, c) :: specRunsAux D (j + 1) (j + 1) (dirTags (t :: ts'))
          by rw [specRunsAux, if_neg (fun hh => hcd hh.symm)]]
        rw [List.dropLast_cons_of_ne_nil (specRunsAux_ne_nil _ _ _ _),
          List.map_cons]
        rw [ih t D (j + 1) (j + 1)]
        simp [runPattern, AdvancedTimeSeriesModel.calculateConfidence]

/-- C3 amended: for every trend series, the emitted trend patterns are
exactly the maximal contiguous same-direction runs EXCEPT the final one
(the run ending at the last index is never emitted), each pattern's
startIndex and endIndex delimiting its run and its direction being the
run's. -/
theorem analyzeTrend_eq_runs_dropLast (trend : List ℚ) :
    AdvancedTimeSeriesModel.analyzeTrend trend =
      (specTrendRuns trend).dropLast.map runPattern := by
  match trend with
  | [] => rfl
  | [t0] => rfl
  | t0 :: t1 :: rest =>
      show AdvancedTimeSeriesModel.analyzeTrendGo _ t0 none 0 1 (t1 :: rest) = _
      rw [analyzeTrendGo_cons_none]
      rw [analyzeTrendGo_eq_runs (t0 :: t1 :: rest) rest t1
        (if t0 < t1 then Dir.up else Dir.down) 1 1]
      rw [show specTrendRuns (t0 :: t1 :: rest) =
          specRunsAux (if t0 < t1 then Dir.up else Dir.down) 1 1
            (dirTags (t1 :: rest)) by
        rw [specTrendRuns, dirTags_cons_cons]]

/-- C3 counterexample: on the decomposition trend of the concrete series
0..29 (30 points, the engine's minimum), the tagged indices form exactly one
maximal same-direction run — the final run, covering indices 1..29 and
ending at the last index — yet analyzeTrend emits no Pattern at all, so the
final run does not yield a Pattern delimiting it as the claim states. -/
theorem analyzeTrend_counterexample :
    specTrendRuns
        (AdvancedTimeSeriesModel.decompose 10
          ((List.range 30).map (fun i => (i : ℚ)))).trend =
      [(1, 29, Dir.up)] ∧
    (AdvancedTimeSeriesModel.decompose 10
        ((List.range 30).map (fun i => (i : ℚ)))).trend.length = 30 ∧
    AdvancedTimeSeriesModel.analyzeTrend
        (AdvancedTimeSeriesModel.decompose 10
          ((List.range 30).map (fun i => (i : ℚ)))).trend =
      [] := by
  refine ⟨?_, ?_, ?_⟩ <;> with_unfolding_all rfl

/-- Trend direction reported by the predictor. -/
inductive Direction where
  | up
  | down
  | sideways
deriving DecidableEq, Repr

/-- Trend indicator returned by predictTrend. -/
structure TrendIndicator where
  direction : Direction
  strength : ℚ
  duration : Nat
  confidence : ℚ
deriving DecidableEq, Repr

/-- Model of Math.min on finite values. -/
def jsMin (a b : ℚ) : ℚ := if a < b then a else b

namespace TrendPredictor

/-- Percent change between consecutive values: slice(1) paired with the
original array by index. -/
def calculateReturns (values : List ℚ) : List ℚ :=
  List.zipWith (fun value prev => (value - prev) / prev) values.tail values

/-- The last minTrendDuration returns: slice(-k), which is the whole array
when it is shorter than k, matching the truncated natural subtraction. -/
def recentReturns (minTrendDuration : Nat) (returns : List ℚ) : List ℚ :=
  returns.drop (returns.length - minTrendDuration)

/-- Direction from the mean recent return, thresholded to separate sideways
from directional moves.  On an empty return series JavaScript would throw
(reduce of an empty array with no initial value) where this model divides by
zero to 0; the claims only evaluate it on series of at least two points. -/
def determineTrendDirection (minTrendDuration : Nat) (trendThreshold : ℚ)
    (returns : List ℚ) : Direction :=
  let recent := recentReturns minTrendDuration returns
  let averageReturn := recent.sum / recent.length
  if jsAbs averageReturn < trendThreshold then .sideways
  else if 0 < averageReturn then .up
  else .down

/-- Absolute mean recent return. -/
def calculateTrendStrength (minTrendDuration : Nat) (returns : List ℚ) : ℚ :=
  let recent := recentReturns minTrendDuration returns
  jsAbs recent.sum / recent.length

/-- Backward scan from the most recent return, counting consecutive returns
consistent with the detected direction and stopping at the first that is
not. -/
def calculateTrendDuration (trendThreshold : ℚ) (returns : List ℚ)
    (direction : Direction) : Nat :=
  (returns.reverse.takeWhile (fun r =>
    match direction with
    | .up => decide (-trendThreshold < r)
    | .down => decide (r < trendThreshold)
    | .sideways => decide (jsAbs r < trendThreshold))).length

/-- Weighted combination of normalized strength (60%) and normalized
duration (40%). -/
def calculateTrendConfidence (minTrendDuration : Nat) (trendThreshold : ℚ)
    (strength : ℚ) (duration : Nat) : ℚ :=
  let strengthWeight : ℚ := 3 / 5
  let durationWeight : ℚ := 2 / 5
  let normalizedStrength := jsMin (strength / trendThreshold) 1
  let normalizedDuration :=
    jsMin ((duration : ℚ) / ((minTrendDuration * 2 : Nat) : ℚ)) 1
  strengthWeight * normalizedStrength + durationWeight * normalizedDuration

/-- predictTrend with explicit configuration (constructor defaults are
minTrendDuration 5 and trendThreshold 0.02). -/
def predict (minTrendDuration : Nat) (trendThreshold : ℚ)
    (data : List DataPoint) : TrendIndicator :=
  let values := data.map (fun d => d.value)
  let returns := calculateReturns values
  let direction := determineTrendDirection minTrendDuration trendThreshold
    returns
  let strength := calculateTrendStrength minTrendDuration returns
  let duration := calculateTrendDuration trendThreshold returns direction
  let confidence := calculateTrendConfidence minTrendDuration trendThreshold
    strength duration
  ⟨direction, strength, duration, confidence⟩

end TrendPredictor

/-- The linearly increasing series 1..100 as data points at minute
timestamps. -/
def linearSeries100 : List DataPoint :=
  (List.range 100).map (fun i => ⟨(i : ℤ) + 1, (i : ℚ) + 1⟩)

/-- C7 counterexample: on the series 1..100 with the default
minTrendDuration 5 and trendThreshold 0.02 = 1/50, the mean of the last
five returns is (1/95 + 1/96 + 1/97 + 1/98 + 1/99)/5, which is below the
threshold, so predictTrend reports direction sideways — not up as the
claim states. -/
theorem predictTrend_counterexample :
    (TrendPredictor.predict 5 (1 / 50) linearSeries100).direction =
      Direction.sideways := by
  with_unfolding_all rfl

/-- C7 amended: on the series 1..100 with default configuration,
predictTrend reports direction sideways (the mean recent percent return of
a linear series flattens below the 0.02 threshold) with strength > 0. -/
theorem predictTrend_linear_scenario :
    (TrendPredictor.predict 5 (1 / 50) linearSeries100).direction =
        Direction.sideways ∧
      0 < (TrendPredictor.predict 5 (1 / 50) linearSeries100).strength := by
  constructor
  · with_unfolding_all rfl
  · with_unfolding_all decide

namespace ForecastingModel

/-- Exponential smoothing with alpha 0.2.  On an empty series JavaScript
reads data[0] as undefined without raising; the 0 default here is
unobservable in the claims because the sibling estimators reject first. -/
def exponentialSmoothing (data : List ℚ) : Except String ℚ :=
  .ok (data.tail.foldl
    (fun result v => (1 / 5) * v + (1 - 1 / 5) * result) (data.headD 0))

/-- Moving-average stand-in for ARIMA: mean of the last five values.  The
reduce call has no initial value, so JavaScript throws a TypeError on an
empty array, modelled by the error result. -/
def arima (data : List ℚ) : Except String ℚ :=
  let recent := data.drop (data.length - 5)
  if recent = [] then .error "Reduce of empty array with no initial value"
  else .ok (recent.sum / 5)

/-- Least-squares line over x and y.  The sumX and sumY reduce calls have no
initial value and throw on an empty array (sumXY and sumXX carry an initial
0).  The slope's division by zero for a single point yields NaN in
JavaScript and 0 here; the claims never observe that case. -/
def linearRegression (x y : List ℚ) : Except String (ℚ × ℚ) :=
  if x = [] ∨ y = [] then .error "Reduce of empty array with no initial value"
  else
    let n : ℚ := x.length
    let sumX := x.sum
    let sumY := y.sum
    let sumXY := (List.zipWith (fun xi yi => xi * yi) x y).sum
    let sumXX := (x.map (fun xi => xi * xi)).sum
    let slope := (n * sumXY - sumX * sumY) / (n * sumXX - sumX * sumX)
    let intercept := (sumY - slope * sumX) / n
    .ok (slope, intercept)

/-- Linear-regression stand-in for Prophet: fit index versus value and
extrapolate to index n + 1. -/
def prophet (data : List ℚ) : Except String ℚ :=
  let x := (List.range data.length).map (fun i => (i : ℚ))
  match linearRegression x data with
  | .error e => .error e
  | .ok (slope, intercept) =>
      .ok (slope * ((data.length : ℚ) + 1) + intercept)

/-- The ensemble: a reduce over the forecasts against the fixed weight
array [0.4, 0.3, 0.3].  A weight beyond index 2 would be undefined in
JavaScript (NaN product); the 0 default is unobservable since exactly three
estimators are ensembled. -/
def ensembleForecasts (forecasts : List ℚ) : ℚ :=
  forecasts.enum.foldl
    (fun acc p =>
      acc + p.2 * (([2 / 5, 3 / 10, 3 / 10] : List ℚ).getD p.1 0)) 0

/-- Value path of generatePrediction: the three estimators are awaited
together by Promise.all, so the first estimator rejection (in index order,
as all settle synchronously here) rejects the whole prediction; otherwise
the fixed-weight ensemble combines the three values.  The confidence and
bounds fields of the source's Prediction record do not bear on the claims
and are not modelled. -/
def generatePrediction (historicalData : List ℚ) : Except String ℚ :=
  match exponentialSmoothing historicalData, arima historicalData,
      prophet historicalData with
  | .error e, _, _ => .error e
  | _, .error e, _ => .error e
  | _, _, .error e => .error e
  | .ok a, .ok b, .ok c => .ok (ensembleForecasts [a, b, c])

end ForecastingModel

/-- C6: evidence that the code lacks the graceful degradation the
specification requires.  On the empty history the ARIMA and Prophet
stand-ins throw (reduce of an empty array) while exponential smoothing
succeeds, and the whole prediction rejects with the estimator error instead
of returning a forecast from the remaining estimators; and the ensemble is
always the fixed 0.4/0.3/0.3 weighting — no re-normalization over remaining
estimators exists anywhere in the code. -/
theorem generatePrediction_no_graceful_degradation :
    ForecastingModel.generatePrediction [] =
        .error "Reduce of empty array with no initial value" ∧
      ∀ a b c : ℚ, ForecastingModel.ensembleForecasts [a, b, c] =
        (2 / 5) * a + (3 / 10) * b + (3 / 10) * c := by
  constructor
  · rfl
  · intro a b c
    simp [ForecastingModel.ensembleForecasts, List.enum, List.enumFrom]
    ring

/-- Ring buffer over an option-valued backing array (JavaScript's
new Array(capacity) starts with holes); capacity models this.buffer.length,
which never changes because every write lands below it. -/
structure CircularBuffer (α : Type) where
  buffer : Nat → Option α
  capacity : Nat
  head : Nat
  tail : Nat
  size : Nat

namespace CircularBuffer

/-- A fresh buffer of the given capacity. -/
def empty (α : Type) (capacity : Nat) : CircularBuffer α :=
  ⟨fun _ => none, capacity, 0, 0, 0⟩

/-- Write at the tail and advance it mod capacity; grow while below
capacity, otherwise advance the head as well, silently dropping the oldest
slot. -/
def push (b : CircularBuffer α) (item : α) : CircularBuffer α :=
  let buffer := Function.update b.buffer b.tail (some item)
  let tail := (b.tail + 1) % b.capacity
  if b.size < b.capacity then
    { b with buffer := buffer, tail := tail, size := b.size + 1 }
  else
    { b with
      buffer := buffer
      tail := tail
      head := (b.head + 1) % b.capacity }

/-- The live contents in arrival order: size slots starting at the head. -/
def toList (b : CircularBuffer α) : List (Option α) :=
  (List.range b.size).map (fun i => b.buffer ((b.head + i) % b.capacity))

/-- Well-formedness every push preserves from a fresh buffer: the head is a
valid index and the tail sits size slots past the head. -/
def WF (b : CircularBuffer α) : Prop :=
  b.head < b.capacity ∧ b.tail = (b.head + b.size) % b.capacity ∧
    b.size ≤ b.capacity

end CircularBuffer

theorem mod_shift_ne_head (cap h j : Nat) (hh : h < cap) (hj1 : 0 < j)
    (hj2 : j < cap) : (h + j) % cap ≠ h := by
  intro he
  have hmod : h ≡ h + j [MOD cap] := by
    unfold Nat.ModEq
    rw [he, Nat.mod_eq_of_lt hh]
  have hdvd : cap ∣ j := by
    have := (Nat.modEq_iff_dvd' (Nat.le_add_right h j)).mp hmod
    simpa using this
  exact absurd (Nat.le_of_dvd hj1 hdvd) (not_le.mpr hj2)

namespace WindowManager

/-- addToWindow on one window's array: append the point, prune from the
front while the head is older than the retention cutoff, then trim from the
front to the maximum size (splice at 0 of length - maxSize entries). -/
def addToWindow (window : List DataPoint) (dataPoint : DataPoint)
    (maxSize : Nat) (now retentionPeriod : ℤ) : List DataPoint :=
  let window := window ++ [dataPoint]
  let cutoffTime := now - retentionPeriod
  let window := window.dropWhile (fun q => decide (q.timestamp < cutoffTime))
  if maxSize < window.length then window.drop (window.length - maxSize)
  else window

end WindowManager

/-- C1: at full capacity a push keeps size equal to capacity and drops
exactly the oldest point in arrival order (the snapshot becomes the old one
without its head, with the new item appended); and pushing the points
1..6 through addToWindow with maximum size 5 and an effectively infinite
retention period leaves the window snapshot [2,3,4,5,6]. -/
theorem circularBuffer_push_full :
    (∀ (α : Type) (b : CircularBuffer α) (x : α), b.WF →
        b.size = b.capacity →
        (b.push x).size = b.capacity ∧
          (b.push x).toList = b.toList.drop 1 ++ [some x]) ∧
      ((((List.range 6).map
            (fun i => (⟨(i : ℤ) + 1, (i : ℚ) + 1⟩ : DataPoint))).foldl
          (fun w p => WindowManager.addToWindow w p 5 6 1000000000000000)
          []).map (fun p => p.value)) = [2, 3, 4, 5, 6] := by
  constructor
  · intro α b x hwf hfull
    obtain ⟨hhead, htail, hsz⟩ := hwf
    have hcap : 0 < b.capacity := Nat.lt_of_le_of_lt (Nat.zero_le _) hhead
    have hnlt : ¬ b.size < b.capacity := by omega
    have htl : b.tail = b.head := by
      rw [htail, hfull, Nat.add_mod_right, Nat.mod_eq_of_lt hhead]
    obtain ⟨k, hk⟩ : ∃ k, b.capacity = k + 1 := ⟨b.capacity - 1, by omega⟩
    constructor
    · simp only [CircularBuffer.push, hnlt, if_false]
      exact hfull
    · simp only [CircularBuffer.push, hnlt, if_false, CircularBuffer.toList,
        htl]
      rw [hfull, hk]
      conv_rhs => rw [List.range_succ_eq_map, List.map_cons, List.drop_one,
        List.tail_cons, List.map_map]
      rw [List.range_succ, List.map_append, List.map_singleton]
      congr 1
      · apply List.map_congr_left
        intro i hi
        have hik : i < k := List.mem_range.mp hi
        have hidx : ((b.head + 1) % b.capacity + i) % b.capacity =
            (b.head + (1 + i)) % b.capacity := by
          rw [Nat.mod_add_mod, Nat.add_assoc]
        rw [hk] at hidx
        rw [hidx]
        have hne : (b.head + (1 + i)) % (k + 1) ≠ b.head := by
          apply mod_shift_ne_head (k + 1) b.head (1 + i)
          · rw [← hk]; exact hhead
          · omega
          · omega
        rw [Function.update_noteq hne]
        simp only [Function.comp]
        rw [show b.head + (1 + i) = b.head + Nat.succ i by omega]
      · have hidx : ((b.head + 1) % b.capacity + k) % b.capacity =
            (b.head + (k + 1)) % b.capacity := by
          rw [Nat.mod_add_mod]
          congr 1
          omega
        rw [hk] at hidx
        rw [hidx, ← hk, Nat.add_mod_right, Nat.mod_eq_of_lt hhead,
          Function.update_same]
  · with_unfolding_all rfl

/-- A buffer of capacity 5 filled with the values 1..5. -/
def fullBuffer5 : CircularBuffer ℚ :=
  (((List.range 5).map (fun i => (i : ℚ) + 1))).foldl CircularBuffer.push
    (CircularBuffer.empty ℚ 5)

/-- Witness instantiating C1's universal part on a concrete full buffer. -/
theorem circularBuffer_push_full_witness :
    fullBuffer5.WF ∧ fullBuffer5.size = fullBuffer5.capacity ∧
      ((fullBuffer5.push 6).size = fullBuffer5.capacity ∧
        (fullBuffer5.push 6).toList = fullBuffer5.toList.drop 1 ++ [some 6]) :=
  ⟨⟨by with_unfolding_all decide, by with_unfolding_all decide,
      by with_unfolding_all decide⟩,
    by with_unfolding_all decide,
    circularBuffer_push_full.1 ℚ fullBuffer5 6
      ⟨by with_unfolding_all decide, by with_unfolding_all decide,
        by with_unfolding_all decide⟩
      (by with_unfolding_all decide)⟩

/-- Events the memory manager emits. -/
inductive MMEvent where
  | dataPersisted (key : String)
  | memoryUpdated
  | cacheHit (key : String)
  | storageHit (key : String)
  | miss (key : String)
  | cleanupCompleted
deriving DecidableEq, Repr

/-- One cache slot: the stored value plus its last-touch timestamp. -/
structure CacheEntry (V : Type) where
  value : V
  timestamp : ℤ
deriving DecidableEq, Repr

/-- Model of Map.prototype.set on the association list: overwrite in place
when the key exists (JavaScript Maps keep the original insertion position),
append otherwise. -/
def mapSet (m : List (String × α)) (k : String) (v : α) : List (String × α) :=
  if (m.lookup k).isSome then
    m.map (fun p => if p.1 = k then (k, v) else p)
  else m ++ [(k, v)]

/-- Model of Map.prototype.delete on the association list. -/
def mapDelete (m : List (String × α)) (k : String) : List (String × α) :=
  m.filter (fun p => decide (p.1 ≠ k))

namespace LRUCache

/-- The eviction scan: the reduce keeps the earlier entry only when it is
strictly older, so it settles on the last entry among those with the
minimal timestamp, whose key is then deleted.  The source's reduce would
throw on an empty cache; it is only reached when the cache is at capacity. -/
def evictOldest (cache : List (String × CacheEntry V)) :
    List (String × CacheEntry V) :=
  match cache with
  | [] => cache
  | e :: es =>
      mapDelete cache
        (es.foldl
          (fun oldest current =>
            if oldest.2.timestamp < current.2.timestamp then oldest
            else current) e).1

/-- set: evict once when at capacity, then write the entry stamped with the
current time. -/
def set (maxSize : Nat) (cache : List (String × CacheEntry V)) (k : String)
    (v : V) (now : ℤ) : List (String × CacheEntry V) :=
  let cache := if maxSize ≤ cache.length then evictOldest cache else cache
  mapSet cache k ⟨v, now⟩

/-- get: a missing key is a miss; an expired entry (strictly older than the
TTL) is deleted and is a miss; otherwise the timestamp refreshes and the
value returns. -/
def get (ttl : ℤ) (cache : List (String × CacheEntry V)) (k : String)
    (now : ℤ) : Option V × List (String × CacheEntry V) :=
  match cache.lookup k with
  | none => (none, cache)
  | some entry =>
      if ttl < now - entry.timestamp then (none, mapDelete cache k)
      else (some entry.value, mapSet cache k ⟨entry.value, now⟩)

end LRUCache

namespace StorageManager

/-- store: at capacity delete the first-inserted key, then set.  The
compression wrapper of the source round-trips the payload through JSON, so
the payload is stored as-is here. -/
def store (maxSize : Nat) (storage : List (String × V)) (k : String)
    (v : V) : List (String × V) :=
  let storage :=
    if maxSize ≤ storage.length then
      match storage with
      | [] => storage
      | e :: _ => mapDelete storage e.1
    else storage
  mapSet storage k v

end StorageManager

/-- Combined mutable state of the memory manager: LRU cache plus persistent
store. -/
structure MMState where
  cache : List (String × CacheEntry DataPoint)
  storage : List (String × DataPoint)
deriving DecidableEq, Repr

namespace MemoryManager

/-- Default cache capacity of the constructor. -/
def cacheMaxSize : Nat := 1000

/-- Default cache TTL (one minute) of the constructor. -/
def cacheTTL : ℤ := 60000

/-- Default persistent-store capacity of the constructor. -/
def storageMaxSize : Nat := 10000

/-- Default persistence threshold of the constructor. -/
def persistenceThreshold : ℚ := 100

/-- The importance placeholder of the source: Math.random() * 100, for a
random draw r with 0 ≤ r < 1. -/
def calculateImportance (r : ℚ) : ℚ := r * 100

/-- Persist only when the importance score strictly exceeds the
threshold. -/
def shouldPersist (r : ℚ) : Bool :=
  decide (persistenceThreshold < calculateImportance r)

/-- store: always write the cache; additionally persist the payload and
emit data-persisted when the importance exceeds the threshold; always emit
memory-updated. -/
def store (s : MMState) (k : String) (data : DataPoint) (now : ℤ) (r : ℚ) :
    MMState × List MMEvent :=
  let cache := LRUCache.set cacheMaxSize s.cache k data now
  if shouldPersist r then
    ({ cache := cache,
       storage := StorageManager.store storageMaxSize s.storage k data },
      [.dataPersisted k, .memoryUpdated])
  else ({ cache := cache, storage := s.storage }, [.memoryUpdated])

/-- retrieve: cache first (a hit refreshes recency), then the persistent
store (a hit re-populates the cache), otherwise a miss. -/
def retrieve (s : MMState) (k : String) (now : ℤ) :
    Option DataPoint × MMState × List MMEvent :=
  let r := LRUCache.get cacheTTL s.cache k now
  match r.1 with
  | some v => (some v, { s with cache := r.2 }, [.cacheHit k])
  | none =>
      match s.storage.lookup k with
      | some d =>
          (some d,
            { cache := LRUCache.set cacheMaxSize r.2 k d now,
              storage := s.storage }, [.storageHit k])
      | none => (none, { s with cache := r.2 }, [.miss k])

/-- cleanup: the source calls cache.clear(), emptying the whole cache; the
persistent store is untouched. -/
def cleanup (s : MMState) : MMState × List MMEvent :=
  ({ s with cache := [] }, [.cleanupCompleted])

end MemoryManager

/-- C9 amended: a cleanup sweep removes ALL cache entries — expired or not —
so no key is retrievable from the cache afterwards, while the persistent
store's contents are exactly what they were before the sweep. -/
theorem cleanup_clears_whole_cache (s : MMState) (k : String) (now : ℤ) :
    (MemoryManager.cleanup s).1.storage = s.storage ∧
      (MemoryManager.cleanup s).1.cache = [] ∧
      (LRUCache.get MemoryManager.cacheTTL (MemoryManager.cleanup s).1.cache
          k now).1 = none :=
  ⟨rfl, rfl, rfl⟩

/-- The manager state after storing one fresh entry under key k at time 0
(random draw one half), used to refute the claim that cleanup only removes
expired entries. -/
def cleanupDemoState : MMState :=
  (MemoryManager.store ⟨[], []⟩ "k" ⟨1, 42⟩ 0 (1 / 2)).1

/-- C9 counterexample: the entry stored at time 0 has not expired at time 0
(its age 0 is within the TTL) and is retrievable before the sweep, yet
after a cleanup at time 0 it is gone from the cache (the storage part of
the claim does hold: the persistent store is unchanged). -/
theorem cleanup_counterexample :
    ¬ (MemoryManager.cacheTTL < 0 - (0 : ℤ)) ∧
      (LRUCache.get MemoryManager.cacheTTL cleanupDemoState.cache "k" 0).1 =
        some ⟨1, 42⟩ ∧
      (LRUCache.get MemoryManager.cacheTTL
          (MemoryManager.cleanup cleanupDemoState).1.cache "k" 0).1 = none ∧
      (MemoryManager.cleanup cleanupDemoState).1.storage =
        cleanupDemoState.storage := by
  refine ⟨by decide, ?_, rfl, rfl⟩
  with_unfolding_all rfl

/-- One store request: key, payload, wall clock time and the Math.random()
draw the importance placeholder consumes. -/
structure StoreOp where
  key : String
  data : DataPoint
  now : ℤ
  rand : ℚ
deriving DecidableEq, Repr

/-- Runs a sequence of store operations from a state, accumulating every
emitted event. -/
def runStores (s : MMState) (evs : List MMEvent) :
    List StoreOp → MMState × List MMEvent
  | [] => (s, evs)
  | op :: ops =>
      let r := MemoryManager.store s op.key op.data op.now op.rand
      runStores r.1 (evs ++ r.2) ops

theorem shouldPersist_false_of_lt_one (r : ℚ) (hr : r < 1) :
    MemoryManager.calculateImportance r < 100 ∧
      MemoryManager.shouldPersist r = false := by
  have himp : MemoryManager.calculateImportance r < 100 := by
    unfold MemoryManager.calculateImportance
    calc r * 100 < 1 * 100 := by
          exact mul_lt_mul_of_pos_right hr (by norm_num)
    _ = 100 := one_mul 100
  refine ⟨himp, ?_⟩
  unfold MemoryManager.shouldPersist
  rw [decide_eq_false]
  intro hlt
  have : MemoryManager.persistenceThreshold = (100 : ℚ) := rfl
  rw [this] at hlt
  exact absurd hlt (not_lt.mpr (le_of_lt himp))

theorem runStores_storage_empty (ops : List StoreOp) :
    ∀ (s : MMState) (evs : List MMEvent), s.storage = [] →
    (∀ k, MMEvent.dataPersisted k ∉ evs) →
    (∀ op ∈ ops, op.rand < 1) →
    (runStores s evs ops).1.storage = [] ∧
      ∀ k, MMEvent.dataPersisted k ∉ (runStores s evs ops).2 := by
  induction ops with
  | nil => exact fun s evs hs hevs _ => ⟨hs, hevs⟩
  | cons op ops ih =>
      intro s evs hs hevs hr
      have hsp : MemoryManager.shouldPersist op.rand = false :=
        (shouldPersist_false_of_lt_one op.rand
          (hr op (List.mem_cons_self op ops))).2
      show ((runStores _ _ ops).1.storage = []) ∧ _
      have hstore : MemoryManager.store s op.key op.data op.now op.rand =
          ({ cache := LRUCache.set MemoryManager.cacheMaxSize s.cache op.key
              op.data op.now, storage := s.storage }, [.memoryUpdated]) := by
        unfold MemoryManager.store
        rw [hsp]
        simp
      rw [runStores, hstore]
      apply ih
      · exact hs
      · intro k hk
        rcases List.mem_append.mp hk with hk | hk
        · exact hevs k hk
        · simp at hk
      · exact fun o ho => hr o (List.mem_cons_of_mem op ho)

/-- C10: under the default configuration the importance score is always
strictly below the persistence threshold of 100, so store never persists
and never emits data-persisted; from a fresh manager the persistent store
stays empty over every sequence of store operations; and once a cache
entry's TTL has elapsed (or the key was never cached), retrieve returns a
miss. -/
theorem memoryManager_never_persists :
    (∀ r : ℚ, 0 ≤ r → r < 1 →
      MemoryManager.calculateImportance r < 100 ∧
        MemoryManager.shouldPersist r = false) ∧
    (∀ ops : List StoreOp, (∀ op ∈ ops, op.rand < 1) →
      (runStores ⟨[], []⟩ [] ops).1.storage = [] ∧
        ∀ k, MMEvent.dataPersisted k ∉ (runStores ⟨[], []⟩ [] ops).2) ∧
    (∀ (s : MMState) (k : String) (now : ℤ), s.storage = [] →
      (∀ e, s.cache.lookup k = some e →
        MemoryManager.cacheTTL < now - e.timestamp) →
      (MemoryManager.retrieve s k now).1 = none ∧
        (MemoryManager.retrieve s k now).2.2 = [.miss k]) := by
  refine ⟨fun r _ hr => shouldPersist_false_of_lt_one r hr,
    fun ops h => runStores_storage_empty ops ⟨[], []⟩ [] rfl
      (fun k hk => (List.not_mem_nil _ hk)) h, ?_⟩
  intro s k now hs hexp
  unfold MemoryManager.retrieve
  simp only
  unfold LRUCache.get
  cases hlk : s.cache.lookup k with
  | none =>
      simp only [hs, List.lookup_nil]
      exact ⟨trivial, trivial⟩
  | some entry =>
      have hc := hexp entry hlk
      simp only [hc, if_true, hs, List.lookup_nil]
      exact ⟨trivial, trivial⟩

/-- Witness instantiating C10: random draw one half scores 50 and does not
persist; one concrete store leaves the persistent store empty and emits no
data-persisted event; retrieving that key at time 70000 (past the 60000
TTL of its time-0 entry) is a miss. -/
theorem memoryManager_never_persists_witness :
    ((0 : ℚ) ≤ 1 / 2 ∧ (1 / 2 : ℚ) < 1 ∧
      MemoryManager.calculateImportance (1 / 2) < 100 ∧
        MemoryManager.shouldPersist (1 / 2) = false) ∧
    ((runStores ⟨[], []⟩ [] [⟨"a", ⟨1, 7⟩, 0, 1 / 2⟩]).1.storage = [] ∧
      MMEvent.dataPersisted "a" ∉
        (runStores ⟨[], []⟩ [] [⟨"a", ⟨1, 7⟩, 0, 1 / 2⟩]).2) ∧
    ((MemoryManager.retrieve
        (runStores ⟨[], []⟩ [] [⟨"a", ⟨1, 7⟩, 0, 1 / 2⟩]).1 "a" 70000).1 =
      none) := by
  have h1 := memoryManager_never_persists.1 (1 / 2) (by norm_num) (by norm_num)
  have h2 := memoryManager_never_persists.2.1 [⟨"a", ⟨1, 7⟩, 0, 1 / 2⟩]
    (by intro op hop; simp at hop; rw [hop]; norm_num)
  have h3 := memoryManager_never_persists.2.2
    (runStores ⟨[], []⟩ [] [⟨"a", ⟨1, 7⟩, 0, 1 / 2⟩]).1 "a" 70000
    h2.1
    (by
      intro e he
      rw [show (runStores ⟨[], []⟩ [] [⟨"a", ⟨1, 7⟩, 0, 1 / 2⟩]).1.cache.lookup
          "a" = some ⟨⟨1, 7⟩, 0⟩ from by with_unfolding_all rfl] at he
      cases he
      with_unfolding_all decide)
  exact ⟨⟨by norm_num, by norm_num, h1.1, h1.2⟩, ⟨h2.1, h2.2 "a"⟩, h3.1⟩

theorem jsAbs_nonneg (q : ℚ) : 0 ≤ jsAbs q := by
  unfold jsAbs
  by_cases h : q < 0
  · simp only [h, if_true]
    linarith
  · simp only [h, if_false]
    exact not_lt.mp h

theorem jsAbs_sq (q : ℚ) : jsAbs q ^ 2 = q ^ 2 := by
  rw [jsAbs_eq_abs, sq_abs]

/-- Exact value of a correlation coefficient as the source computes it with
Math.sqrt: val n D stands for the real number n divided by the square root
of D (numerator over the root of the product of the two squared-deviation
sums; D > 0 whenever this constructor is produced).  The infinities and NaN
cover the IEEE division branches. -/
inductive CorrVal where
  | val (num D : ℚ)
  | posInf
  | negInf
  | nan
deriving DecidableEq, Repr

namespace CorrVal

/-- Math.abs on a represented value: the absolute value of n over root D is
the absolute value of n over root D. -/
def jsAbsC : CorrVal → CorrVal
  | val n D => val (jsAbs n) D
  | posInf => posInf
  | negInf => posInf
  | nan => nan

/-- Decides n1 over root D1 > n2 over root D2 (for D1, D2 > 0) by sign
analysis and cross multiplication of squares. -/
def relGt (n1 D1 n2 D2 : ℚ) : Bool :=
  if 0 < n1 then
    if 0 < n2 then decide (n2 ^ 2 * D1 < n1 ^ 2 * D2) else true
  else if n1 = 0 then decide (n2 < 0)
  else if 0 ≤ n2 then false
  else decide (n1 ^ 2 * D2 < n2 ^ 2 * D1)

/-- The JavaScript comparison x > y on correlation values: the sort
comparator's subtraction produces NaN whenever either side is NaN, which
the ECMAScript sort treats as zero (no strict precedence). -/
def gtC : CorrVal → CorrVal → Bool
  | nan, _ => false
  | _, nan => false
  | posInf, posInf => false
  | posInf, _ => true
  | _, posInf => false
  | val _ _, negInf => true
  | negInf, _ => false
  | val n1 D1, val n2 D2 => relGt n1 D1 n2 D2

/-- The represented real number equals 1: positive numerator whose square
is the radicand. -/
def isOne : CorrVal → Prop
  | val n D => 0 < n ∧ n ^ 2 = D
  | _ => False

end CorrVal

namespace AdvancedCorrelationAnalyzer

/-- Pearson correlation over the first n = shorter-length positions.  As in
the source, the means divide the FULL array sums by n (the lengths are
equal in every call made by findLags, where this is the true mean).  When
the squared-deviation sums multiply to zero the numerator is forced to
zero as well, so the quotient by root zero is NaN; the infinity branches
are unreachable but mirror IEEE division.  For n = 0 JavaScript's means
are NaN where this model divides to 0; the result is NaN either way since
the empty loop leaves every sum zero. -/
def calculateCorrelation (series1 series2 : List ℚ) : CorrVal :=
  let n := min series1.length series2.length
  let mean1 := series1.sum / (n : ℚ)
  let mean2 := series2.sum / (n : ℚ)
  let numerator := ∑ i in Finset.range n,
    (series1.getD i 0 - mean1) * (series2.getD i 0 - mean2)
  let denom1 := ∑ i in Finset.range n,
    (series1.getD i 0 - mean1) * (series1.getD i 0 - mean1)
  let denom2 := ∑ i in Finset.range n,
    (series2.getD i 0 - mean2) * (series2.getD i 0 - mean2)
  if denom1 * denom2 = 0 then
    if numerator = 0 then .nan
    else if 0 < numerator then .posInf else .negInf
  else .val numerator (denom1 * denom2)

/-- One lag paired with the absolute correlation magnitude the comparator
ranks by. -/
structure LagCorr where
  lag : Nat
  correlation : CorrVal
deriving DecidableEq, Repr

/-- Lags 0..maxLag ranked by descending absolute correlation; the stable
sort keeps the smaller lag first on ties.  series2.slice(0, length - lag)
is take (length - lag): for lag beyond the length JavaScript's negative
slice end can keep a nonempty prefix, but the correlation against the then
empty series1 slice is NaN either way. -/
def findLags (maxLag : Nat) (series1 series2 : List ℚ) : List Nat :=
  let correlations := (List.range (maxLag + 1)).map (fun lag =>
    LagCorr.mk lag (CorrVal.jsAbsC (calculateCorrelation (series1.drop lag)
      (series2.take (series2.length - lag)))))
  (jsSortBy (fun a b => CorrVal.gtC a.correlation b.correlation)
    correlations).map (fun item => item.lag)

/-- Result of analyze: coefficient at the winning lag, constant
significance placeholder 0.95. -/
structure CorrelationResult where
  coefficient : CorrVal
  significance : ℚ
  lag : Nat
deriving DecidableEq, Repr

/-- analyze: rank the lags, recompute the correlation at the winner. -/
def analyze (maxLag : Nat) (series1 series2 : List ℚ) : CorrelationResult :=
  let lags := findLags maxLag series1 series2
  let bestLag := lags.getD 0 0
  let coefficient := calculateCorrelation (series1.drop bestLag)
    (series2.take (series2.length - bestLag))
  ⟨coefficient, 19 / 20, bestLag⟩

/-- The sum of squared deviations from the mean, which is at once the
numerator and each denominator sum of the self-correlation. -/
def dSum (A : List ℚ) : ℚ :=
  ∑ i in Finset.range A.length,
    (A.getD i 0 - A.sum / (A.length : ℚ)) *
      (A.getD i 0 - A.sum / (A.length : ℚ))

end AdvancedCorrelationAnalyzer

theorem dSum_pos (A : List ℚ) (hnc : ∃ a ∈ A, ∃ b ∈ A, a ≠ b) :
    0 < AdvancedCorrelationAnalyzer.dSum A := by
  have hnn : 0 ≤ AdvancedCorrelationAnalyzer.dSum A :=
    Finset.sum_nonneg fun i _ => mul_self_nonneg _
  rcases lt_or_eq_of_le hnn with h | h
  · exact h
  · exfalso
    obtain ⟨a, ha, b, hb, hab⟩ := hnc
    have hall : ∀ x ∈ A, x = A.sum / (A.length : ℚ) := by
      intro x hx
      obtain ⟨i, hi, hix⟩ := List.mem_iff_getElem.mp hx
      have hzero := (Finset.sum_eq_zero_iff_of_nonneg
        (fun i _ => mul_self_nonneg _)).mp h.symm i (Finset.mem_range.mpr hi)
      have hdiff := mul_self_eq_zero.mp hzero
      have hgd : A.getD i 0 = A[i] := List.getD_eq_getElem A 0 hi
      rw [hgd, hix] at hdiff
      linarith [hdiff]
    rw [hall a ha, hall b hb] at hab
    exact hab rfl

theorem calculateCorrelation_self_eq (A : List ℚ)
    (hd : AdvancedCorrelationAnalyzer.dSum A ≠ 0) :
    AdvancedCorrelationAnalyzer.calculateCorrelation A A =
      CorrVal.val (AdvancedCorrelationAnalyzer.dSum A)
        (AdvancedCorrelationAnalyzer.dSum A *
          AdvancedCorrelationAnalyzer.dSum A) := by
  unfold AdvancedCorrelationAnalyzer.dSum at hd ⊢
  simp only [AdvancedCorrelationAnalyzer.calculateCorrelation, min_self]
  rw [if_neg (mul_ne_zero hd hd)]

theorem calculateCorrelation_cases (s1 s2 : List ℚ) :
    AdvancedCorrelationAnalyzer.calculateCorrelation s1 s2 = CorrVal.nan ∨
      ∃ n D, AdvancedCorrelationAnalyzer.calculateCorrelation s1 s2 =
          CorrVal.val n D ∧ 0 < D ∧ n ^ 2 ≤ D := by
  simp only [AdvancedCorrelationAnalyzer.calculateCorrelation]
  set n := min s1.length s2.length with hn
  set m1 := s1.sum / (n : ℚ) with hm1
  set m2 := s2.sum / (n : ℚ) with hm2
  set d1 := ∑ i in Finset.range n,
    (s1.getD i 0 - m1) * (s1.getD i 0 - m1) with hd1
  set d2 := ∑ i in Finset.range n,
    (s2.getD i 0 - m2) * (s2.getD i 0 - m2) with hd2
  set num := ∑ i in Finset.range n,
    (s1.getD i 0 - m1) * (s2.getD i 0 - m2) with hnum
  by_cases h0 : d1 * d2 = 0
  · left
    have hnum0 : num = 0 := by
      rcases mul_eq_zero.mp h0 with h | h
      · have hall := (Finset.sum_eq_zero_iff_of_nonneg
          (fun i _ => mul_self_nonneg _)).mp (hd1 ▸ h)
        rw [hnum]
        apply Finset.sum_eq_zero
        intro i hi
        rw [mul_self_eq_zero.mp (hall i hi), zero_mul]
      · have hall := (Finset.sum_eq_zero_iff_of_nonneg
          (fun i _ => mul_self_nonneg _)).mp (hd2 ▸ h)
        rw [hnum]
        apply Finset.sum_eq_zero
        intro i hi
        rw [mul_self_eq_zero.mp (hall i hi), mul_zero]
    rw [if_pos h0, if_pos hnum0]
  · right
    refine ⟨num, d1 * d2, by rw [if_neg h0], ?_, ?_⟩
    · have h1 : 0 ≤ d1 := hd1 ▸ Finset.sum_nonneg fun i _ => mul_self_nonneg _
      have h2 : 0 ≤ d2 := hd2 ▸ Finset.sum_nonneg fun i _ => mul_self_nonneg _
      rcases mul_ne_zero_iff.mp h0 with ⟨h1', h2'⟩
      exact mul_pos (lt_of_le_of_ne h1 (Ne.symm h1'))
        (lt_of_le_of_ne h2 (Ne.symm h2'))
    · have hcs := Finset.sum_mul_sq_le_sq_mul_sq (Finset.range n)
        (fun i => s1.getD i 0 - m1) (fun i => s2.getD i 0 - m2)
      calc num ^ 2 ≤
          (∑ i in Finset.range n, (s1.getD i 0 - m1) ^ 2) *
            ∑ i in Finset.range n, (s2.getD i 0 - m2) ^ 2 := hcs
        _ = d1 * d2 := by
            rw [hd1, hd2]
            congr 1 <;> exact Finset.sum_congr rfl fun i _ => by ring

theorem gtC_vs_one_false (c : CorrVal) (d : ℚ) (hd : 0 < d)
    (hc : c = CorrVal.nan ∨
      ∃ n D, c = CorrVal.val n D ∧ 0 < D ∧ n ^ 2 ≤ D) :
    CorrVal.gtC (CorrVal.jsAbsC c) (CorrVal.val d (d * d)) = false := by
  rcases hc with hc | ⟨n, D, hc, hD, hle⟩
  · subst hc; rfl
  · subst hc
    show CorrVal.relGt (jsAbs n) D d (d * d) = false
    unfold CorrVal.relGt
    rcases lt_trichotomy (jsAbs n) 0 with h | h | h
    · exact absurd h (not_lt.mpr (jsAbs_nonneg n))
    · rw [h]
      simp [hd.asymm]
    · rw [if_pos h, if_pos hd]
      apply decide_eq_false
      apply not_lt.mpr
      have heq : jsAbs n ^ 2 * (d * d) = n ^ 2 * d ^ 2 := by
        rw [jsAbs_sq]; ring
      rw [heq]
      calc n ^ 2 * d ^ 2 ≤ D * d ^ 2 :=
            mul_le_mul_of_nonneg_right hle (sq_nonneg d)
        _ = d ^ 2 * D := by ring

theorem lagEntry_gt_self_false (A : List ℚ)
    (hdpos : 0 < AdvancedCorrelationAnalyzer.dSum A) (j : Nat) :
    CorrVal.gtC
      (CorrVal.jsAbsC (AdvancedCorrelationAnalyzer.calculateCorrelation
        (A.drop j) (A.take (A.length - j))))
      (CorrVal.val (AdvancedCorrelationAnalyzer.dSum A)
        (AdvancedCorrelationAnalyzer.dSum A *
          AdvancedCorrelationAnalyzer.dSum A)) = false :=
  gtC_vs_one_false _ _ hdpos (calculateCorrelation_cases _ _)

theorem jsAbsC_self_corr (A : List ℚ)
    (hdpos : 0 < AdvancedCorrelationAnalyzer.dSum A) :
    CorrVal.jsAbsC (AdvancedCorrelationAnalyzer.calculateCorrelation
        (A.drop 0) (A.take (A.length - 0))) =
      CorrVal.val (AdvancedCorrelationAnalyzer.dSum A)
        (AdvancedCorrelationAnalyzer.dSum A *
          AdvancedCorrelationAnalyzer.dSum A) := by
  rw [List.drop_zero, Nat.sub_zero, List.take_length,
    calculateCorrelation_self_eq A (ne_of_gt hdpos)]
  show CorrVal.val (jsAbs (AdvancedCorrelationAnalyzer.dSum A)) _ = _
  rw [show jsAbs (AdvancedCorrelationAnalyzer.dSum A) =
      AdvancedCorrelationAnalyzer.dSum A from by
    unfold jsAbs
    rw [if_neg (not_lt.mpr (le_of_lt hdpos))]]

theorem findLags_self_head (A : List ℚ) (hnc : ∃ a ∈ A, ∃ b ∈ A, a ≠ b) :
    ∃ t, AdvancedCorrelationAnalyzer.findLags 10 A A = 0 :: t := by
  have hdpos := dSum_pos A hnc
  simp only [AdvancedCorrelationAnalyzer.findLags]
  rw [List.range_succ_eq_map, List.map_cons]
  have hrest : ∀ x ∈ (List.map Nat.succ (List.range 10)).map
      (fun lag => AdvancedCorrelationAnalyzer.LagCorr.mk lag
        (CorrVal.jsAbsC (AdvancedCorrelationAnalyzer.calculateCorrelation
          (A.drop lag) (A.take (A.length - lag))))),
      (fun a b => CorrVal.gtC a.correlation b.correlation) x
        (AdvancedCorrelationAnalyzer.LagCorr.mk 0
          (CorrVal.jsAbsC (AdvancedCorrelationAnalyzer.calculateCorrelation
            (A.drop 0) (A.take (A.length - 0))))) = false := by
    intro x hx
    obtain ⟨j, hj, rfl⟩ := List.mem_map.mp hx
    show CorrVal.gtC _ (CorrVal.jsAbsC
      (AdvancedCorrelationAnalyzer.calculateCorrelation
        (A.drop 0) (A.take (A.length - 0)))) = false
    rw [jsAbsC_self_corr A hdpos]
    exact lagEntry_gt_self_false A hdpos j
  obtain ⟨t, ht⟩ := jsSortBy_cons_head
    (fun a b : AdvancedCorrelationAnalyzer.LagCorr =>
      CorrVal.gtC a.correlation b.correlation) _ _ hrest
  rw [ht, List.map_cons]
  exact ⟨_, rfl⟩

/-- C8: for every non-constant series A of length at least 2, the lag
search over (A, A) reports lag 0 with a coefficient representing exactly 1:
the lag-0 entry has absolute correlation 1, Cauchy-Schwarz bounds every
other defined magnitude by 1 and NaN entries never win a comparison, and
the stable sort keeps the smallest of tied lags first. -/
theorem analyzeCorrelation_self (A : List ℚ) (hlen : 2 ≤ A.length)
    (hnc : ∃ a ∈ A, ∃ b ∈ A, a ≠ b) :
    (AdvancedCorrelationAnalyzer.analyze 10 A A).lag = 0 ∧
      CorrVal.isOne
        (AdvancedCorrelationAnalyzer.analyze 10 A A).coefficient := by
  have hdpos := dSum_pos A hnc
  obtain ⟨t, ht⟩ := findLags_self_head A hnc
  constructor
  · simp only [AdvancedCorrelationAnalyzer.analyze]
    rw [ht]
    rfl
  · simp only [AdvancedCorrelationAnalyzer.analyze]
    rw [ht]
    show CorrVal.isOne (AdvancedCorrelationAnalyzer.calculateCorrelation
      (A.drop ((0 :: t).getD 0 0)) (A.take (A.length - (0 :: t).getD 0 0)))
    rw [show ((0 : Nat) :: t).getD 0 0 = 0 from rfl]
    rw [List.drop_zero, Nat.sub_zero, List.take_length,
      calculateCorrelation_self_eq A (ne_of_gt hdpos)]
    exact ⟨hdpos, by ring⟩

/-- Witness instantiating C8 on the concrete non-constant series [0, 1]. -/
theorem analyzeCorrelation_self_witness :
    2 ≤ ([0, 1] : List ℚ).length ∧
      (∃ a ∈ ([0, 1] : List ℚ), ∃ b ∈ ([0, 1] : List ℚ), a ≠ b) ∧
      ((AdvancedCorrelationAnalyzer.analyze 10 [0, 1] [0, 1]).lag = 0 ∧
        CorrVal.isOne
          (AdvancedCorrelationAnalyzer.analyze 10 [0, 1] [0, 1]).coefficient) :=
  ⟨by decide, by decide,
    analyzeCorrelation_self [0, 1] (by decide) (by decide)⟩
